import Mathlib

/-!
Verification of `polartools.absorption` (x-ray absorption loading and
normalization).  The Python module is shallowly embedded: arrays become
`List ℚ`, possibly-NaN arrays become `List (Option ℚ)` (`none` = non-finite),
and the external numeric collaborators (the lmfit polynomial fitter,
`np.log`) are abstracted as function parameters, since the Python code only
consumes their results.  Each embedded definition cites the source lines it
models.  Definitions come first, all theorems afterwards.
-/

namespace Polartools

/-! ### Polynomial evaluation

`lmfit.models.PolynomialModel` with coefficients `c0, c1, ...` evaluates
`c0 + c1*x + c2*x^2 + ...`; we keep coefficients as a list, low degree
first. -/

def evalPoly (cs : List ℚ) (x : ℚ) : ℚ :=
  match cs with
  | [] => 0
  | c :: rest => c + x * evalPoly rest x

/-- Python slice `xs[a:b]` for non-negative bounds. -/
def pySlice {α : Type} (xs : List α) (a b : Nat) : List α :=
  (xs.drop a).take (b - a)

/-! ### larch index searches

`_flatten_norm` (absorption.py lines 676-678) locates its indices with
`larch.math.index_nearest` and `larch.math.index_of`:

- `index_nearest(array, value)` is `np.abs(array-value).argmin()`: the first
  index minimizing the absolute distance to `value`;
- `index_of(arrval, value)` returns `0` if `value < min(arrval)` and
  otherwise `max(np.where(arrval <= value)[0])`: the largest index whose
  entry is at or below `value`.

We embed both as structural recursions returning the same index and prove
the argmin / max-where characterizations in the theorems section. -/

/-- Absolute value on ℚ, as an executable conditional (`np.abs`). -/
def ratAbs (q : ℚ) : ℚ := if q < 0 then -q else q

/-- First minimizer of `|a - value|` over a list, together with the minimal
distance (`np.argmin` tie-breaking: the earliest index wins). -/
def argminAbs (value : ℚ) : List ℚ → Option (Nat × ℚ)
  | [] => none
  | a :: rest =>
    match argminAbs value rest with
    | none => some (0, ratAbs (a - value))
    | some (j, d) =>
      if ratAbs (a - value) ≤ d then some (0, ratAbs (a - value))
      else some (j + 1, d)

/-- larch `index_nearest` (used for the edge index and the upper window
boundary).  On the empty array `np.argmin` errors; we return 0, and every
theorem touching this case assumes a non-empty array. -/
def index_nearest (arr : List ℚ) (value : ℚ) : Nat :=
  (argminAbs value arr).elim 0 Prod.fst

/-- Largest index whose entry is `≤ value`, if any. -/
def lastLe (value : ℚ) : List ℚ → Option Nat
  | [] => none
  | a :: rest =>
    match lastLe value rest with
    | some j => some (j + 1)
    | none => if a ≤ value then some 0 else none

/-- larch `index_of` (used for the lower window boundary): `0` when no entry
is `≤ value` (the `value < min(arrval)` branch), else the largest such
index. -/
def index_of (arr : List ℚ) (value : ℚ) : Nat :=
  (lastLe value arr).elim 0 id

/-! ### Flattening (`_flatten_norm`, absorption.py lines 633-691) -/

/-- larch `remove_nans2(a, b)` (line 680): drop every position where either
entry is non-finite, returning the two surviving columns. -/
def remove_nans2 (a b : List (Option ℚ)) : List ℚ × List ℚ :=
  let pairs := (a.zip b).filter (fun p => p.1.isSome && p.2.isSome)
  (pairs.map (fun p => p.1.getD 0), pairs.map (fun p => p.2.getD 0))

/-- Numpy slice assignment `flat[:k] = norm[:k]` (line 689): the result has
`flat`'s length, with entries below `k` taken from `norm`. -/
def setSlicePre {α : Type} (flat norm : List α) (dflt : α) (k : Nat) :
    List α :=
  (List.range flat.length).map
    (fun i => if i < k then norm.getD i dflt else flat.getD i dflt)

/-- The array expression
`norm - (result.eval(x=energy) - result.eval(x=energy)[ie0])` (line 688),
for fitted coefficients `cs`.  A non-finite `norm` entry stays non-finite
(NaN arithmetic). -/
def flattenVals (cs : List ℚ) (energy : List ℚ) (norm : List (Option ℚ))
    (ie0 : Nat) : List (Option ℚ) :=
  let pv := energy.map (evalPoly cs)
  List.zipWith (fun n p => n.map (fun q => q - (p - pv.getD ie0 0))) norm pv

/-- The post-edge window samples handed to the polynomial fit (lines
677-680): slice `[p1:p2]` of energy and norm, with non-finite pairs
removed. -/
def usableSamples (energy : List ℚ) (norm : List (Option ℚ))
    (e0 norm1 norm2 : ℚ) : List ℚ × List ℚ :=
  let p1 := index_of energy (norm1 + e0)
  let p2 := index_nearest energy (norm2 + e0)
  remove_nans2 (pySlice (energy.map some) p1 p2) (pySlice norm p1 p2)

/-- Embedding of `_flatten_norm` (lines 676-691).  The fit step fails
exactly when the window holds fewer usable samples than polynomial
coefficients (`nnorm + 1`): with zero samples `np.polyfit` inside
`PolynomialModel.guess` raises (empty vector), and with
`0 < samples < nnorm + 1` the underlying `scipy.optimize.leastsq` raises
`TypeError: Improper input: N=... must not exceed M=...`; with
`samples >= nnorm + 1` the least-squares run returns fitted coefficients
(abstracted as `fit enx mux nnorm`). -/
def flatten_norm (fit : List ℚ → List ℚ → Nat → List ℚ) (energy : List ℚ)
    (norm : List (Option ℚ)) (e0 norm1 norm2 : ℚ) (nnorm : Nat) :
    Except String (List (Option ℚ)) :=
  let ie0 := index_nearest energy e0
  let enx := (usableSamples energy norm e0 norm1 norm2).1
  let mux := (usableSamples energy norm e0 norm1 norm2).2
  if enx.length < nnorm + 1 then
    .error "improper input: number of parameters must not exceed data points"
  else
    .ok (setSlicePre (flattenVals (fit enx mux nnorm) energy norm ie0)
          norm none ie0)

/-- The three index searches performed by `_flatten_norm` (lines 676-678):
edge index, lower window boundary, upper window boundary. -/
def flatten_indices (energy : List ℚ) (e0 norm1 norm2 : ℚ) :
    Nat × Nat × Nat :=
  (index_nearest energy e0, index_of energy (norm1 + e0),
   index_nearest energy (norm2 + e0))

/-! ### Linear resampling (`scipy.interpolate.interp1d`) -/

/-- scipy `interp1d(..., kind='linear', fill_value=np.nan,
bounds_error=False)` applied to points `pts` (pairs `(x, y)`, `x`
ascending) at abscissa `t`: `none` (NaN) outside the data range, linear
interpolation on the bracketing segment inside.  scipy additionally refuses
fewer than two data points; theorems using this definition assume at least
two. -/
def interpPts : List (ℚ × ℚ) → ℚ → Option ℚ
  | [], _ => none
  | [(x, y)], t => if t = x then some y else none
  | (x1, y1) :: (x2, y2) :: rest, t =>
    if t < x1 then none
    else if t ≤ x2 then some (y1 + (y2 - y1) * (t - x1) / (x2 - x1))
    else interpPts ((x2, y2) :: rest) t

/-- `interp1d(energy_tmp, xanes_tmp, kind='linear', fill_value=np.nan,
bounds_error=False)` evaluated at `t` (lines 350-353). -/
def interp1d (xs ys : List ℚ) (t : ℚ) : Option ℚ :=
  interpPts (xs.zip ys) t

/-! ### Multi-scan aggregation (`load_multi_xas`, lines 339-363) -/

/-- One loaded scan: its energy grid and absorption values. -/
structure Scan where
  energy : List ℚ
  xanes : List ℚ

/-- The stacking loop of `load_multi_xas` (lines 339-353): the first scan's
xanes row is kept as loaded; every later scan's xanes is evaluated by linear
interpolation at each energy of the first scan's grid (`np.nan` outside its
own range) and stacked below. -/
def load_multi_xas_rows (scans : List Scan) : List (List (Option ℚ)) :=
  match scans with
  | [] => []
  | s0 :: rest =>
    (s0.xanes.map some) ::
      rest.map (fun s => s0.energy.map (interp1d s.energy s.xanes))

/-- Column `i` of the stacked rows. -/
def colAt (rows : List (List (Option ℚ))) (i : Nat) : List (Option ℚ) :=
  rows.map (fun r => r.getD i none)

/-- `np.mean(axis=0)` on column `i`: NaN as soon as any entry is NaN. -/
def colMean (rows : List (List (Option ℚ))) (i : Nat) : Option ℚ :=
  let col := colAt rows i
  if col.all (fun x => x.isSome) then
    some ((col.map (fun x => x.getD 0)).sum / (col.length : ℚ))
  else none

/-- Population variance (the square of `np.std(axis=0)`) of column `i`. -/
def colVar (rows : List (List (Option ℚ))) (i : Nat) : Option ℚ :=
  let col := colAt rows i
  if col.all (fun x => x.isSome) then
    let vals := col.map (fun x => x.getD 0)
    let m := vals.sum / (vals.length : ℚ)
    some ((vals.map (fun x => (x - m) ^ 2)).sum / (vals.length : ℚ))
  else none

/-- `xanes.std(axis=0) / np.sqrt(len(scans))` (line 357) on column `i`; the
square root lives in `ℝ`. -/
noncomputable def colStdErr (rows : List (List (Option ℚ))) (i : Nat) :
    Option ℝ :=
  (colVar rows i).map
    (fun v => Real.sqrt (v : ℝ) / Real.sqrt (rows.length : ℝ))

/-- `load_multi_xas` with `return_mean=True` (lines 355-361): a single scan
comes back unstacked (1-D shape) with `np.zeros(xanes.size)` as the error
array; two or more scans are stacked, averaged columnwise, and given the
standard error of the mean.  The empty-scans case is a Python
`UnboundLocalError` and is never used below. -/
noncomputable def load_multi_xas_mean (scans : List Scan) :
    List ℚ × List (Option ℚ) × List (Option ℝ) :=
  match scans with
  | [] => ([], [], [])
  | [s] => (s.energy, s.xanes.map some, s.xanes.map (fun _ => some (0 : ℝ)))
  | s0 :: s1 :: rest =>
    let rows := load_multi_xas_rows (s0 :: s1 :: rest)
    (s0.energy,
     (List.range s0.energy.length).map (fun i => colMean rows i),
     (List.range s0.energy.length).map (fun i => colStdErr rows i))

/-! ### Single-scan loader (`load_absorption`, lines 62-124) -/

/-- A column-indexable table as returned by the external `load_table`. -/
structure Table where
  col : String → List ℚ

/-- `load_absorption` after the table is loaded (lines 119-124), with the
default-column selection already resolved and `np.log` abstracted as `log`
(an elementwise float routine).  Transmission mode returns
`ln(monitor/detector)`, fluorescence mode `detector/monitor`. -/
def load_absorption (log : ℚ → ℚ) (table : Table)
    (positioner detector monitor : String) (transmission : Bool) :
    List ℚ × List ℚ :=
  if transmission then
    (table.col positioner,
     (List.zipWith (fun m d => m / d) (table.col monitor)
        (table.col detector)).map log)
  else
    (table.col positioner,
     List.zipWith (fun d m => d / m) (table.col detector)
       (table.col monitor))

/-! ### Dichro loader, non-SPEC branch (`load_dichro`, lines 269-281) -/

/-- `np.reshape` to shape `(rows, cols)`: numpy raises
`ValueError: cannot reshape array of size n into shape (rows, cols)` unless
`n = rows * cols`; it never truncates. -/
def np_reshape (xs : List ℚ) (rows cols : Nat) :
    Except String (List (List ℚ)) :=
  if xs.length = rows * cols then
    .ok ((List.range rows).map
          (fun r => pySlice xs (r * cols) (r * cols + cols)))
  else .error "cannot reshape array"

/-- The non-lock-in (non-SPEC) branch of `load_dichro` (lines 269-281),
starting from the loaded positioner/absorption arrays `x0, y0`:
`size = x0.size // 4`, reshape both to `(size, 4)`, then average rows for
`x` and `xanes`, and recombine columns `[0, 3]` minus `[1, 2]` for
`xmcd`. -/
def load_dichro_reshape (x0 y0 : List ℚ) :
    Except String (List ℚ × List ℚ × List ℚ) := do
  let size := x0.length / 4
  let xr ← np_reshape x0 size 4
  let yr ← np_reshape y0 size 4
  pure (xr.map (fun r => r.sum / 4),
        yr.map (fun r => r.sum / 4),
        yr.map (fun r => (r.getD 0 0 + r.getD 3 0) / 2
                         - (r.getD 1 0 + r.getD 2 0) / 2))

/-! ### Default column-name selection (lines 26-59) -/

/-- The six default column names carried by `_spec_default_cols` /
`_bluesky_default_cols`. -/
structure ColumnDefaults where
  positioner : String
  detector : String
  monitor : String
  dc_col : String
  ac_col : String
  acoff_col : String
deriving DecidableEq

/-- `_spec_default_cols` (lines 26-33). -/
def spec_default_cols : ColumnDefaults :=
  ⟨"Energy", "IC5", "IC4", "Lock DC", "Lock AC", "Lock ACoff"⟩

/-- `_bluesky_default_cols` (lines 35-42). -/
def bluesky_default_cols : ColumnDefaults :=
  ⟨"monochromator_energy", "Ion Ch 5", "Ion Ch 4", "Lock DC", "Lock AC",
   "Lock AC off"⟩

/-- Outcome of the `is_Bluesky_specfile` probe inside
`_select_default_names`: a boolean answer, one of the two caught exceptions
(`NotASpecDataFile`, `SpecDataFileNotFound`), or any other exception. -/
inductive SpecCheckOutcome where
  | isBluesky
  | isNotBluesky
  | raisesNotASpecDataFile
  | raisesSpecDataFileNotFound
  | raisesOther
deriving DecidableEq

/-- `_select_default_names` (lines 45-59): for a string / SpecDataFile
source, probe `is_Bluesky_specfile`; the two spec-file exceptions are caught
and mapped to the Bluesky fallback defaults, any other exception propagates;
non-string sources (databroker) use the Bluesky defaults directly. -/
def select_default_names (sourceIsStrOrSpec : Bool)
    (check : SpecCheckOutcome) : Except String ColumnDefaults :=
  if sourceIsStrOrSpec then
    match check with
    | .isBluesky => .ok bluesky_default_cols
    | .isNotBluesky => .ok spec_default_cols
    | .raisesNotASpecDataFile => .ok bluesky_default_cols
    | .raisesSpecDataFileNotFound => .ok bluesky_default_cols
    | .raisesOther => .error "uncaught exception from is_Bluesky_specfile"
  else .ok bluesky_default_cols

/-! ### Array store (aliasing model for the frame claim)

Numpy arrays are mutable buffers; to state that `normalize_absorption` never
writes through its inputs we model arrays as indices into a store of
buffers.  Allocation appends, in-place slice assignment overwrites one
index. -/

/-- A heap of numpy arrays: an array value is a store index. -/
structure Store where
  arrays : List (List ℚ)

/-- Read buffer `i`. -/
def Store.read (st : Store) (i : Nat) : List ℚ := st.arrays.getD i []

/-- Allocate a fresh buffer (numpy array creation / `np.copy`). -/
def Store.alloc (st : Store) (v : List ℚ) : Store × Nat :=
  (⟨st.arrays ++ [v]⟩, st.arrays.length)

/-- In-place update of buffer `i` (numpy slice assignment). -/
def Store.write (st : Store) (i : Nat) (v : List ℚ) : Store :=
  ⟨st.arrays.set i v⟩

/-- Line 688 on plain finite values (used by the state model, where only
aliasing matters). -/
def flattenValsQ (cs : List ℚ) (energy norm : List ℚ) (ie0 : Nat) :
    List ℚ :=
  let pv := energy.map (evalPoly cs)
  List.zipWith (fun n p => n - (p - pv.getD ie0 0)) norm pv

/-- The two statements of `_flatten_norm` that build `flat` (lines
688-689), as store operations: line 688's arithmetic allocates a fresh
array, line 689's `flat[:ie0] = norm[:ie0]` writes that same fresh array in
place.  The fit only reads copies (line 680 works on `np.copy` slices), so
it does not appear as a store effect; its result is the parameter `cs`. -/
def flatten_norm_state (st : Store) (eid nid : Nat) (cs : List ℚ)
    (e0 : ℚ) : Store × Nat :=
  let energy := st.read eid
  let norm := st.read nid
  let ie0 := index_nearest energy e0
  let st1 := (st.alloc (flattenValsQ cs energy norm ie0)).1
  let fid := (st.alloc (flattenValsQ cs energy norm ie0)).2
  (st1.write fid (setSlicePre (st1.read fid) norm 0 ie0), fid)

/-- The result-building statements of `normalize_absorption` (lines
624-628): `results['energy'] = np.copy(energy)`,
`results['raw'] = np.copy(xanes)`, `results['flat'] = _flatten_norm(...)`.
`preedge` is external and allocates the `norm` buffer itself (`nid`); the
fitted coefficients are abstracted as `cs`.  Returns the final store and
the ids of the three freshly built result arrays. -/
def normalize_absorption_state (st : Store) (eid xid nid : Nat)
    (cs : List ℚ) (e0 : ℚ) : Store × Nat × Nat × Nat :=
  let p1 := st.alloc (st.read eid)
  let st1 := p1.1
  let ecopy := p1.2
  let p2 := st1.alloc (st1.read xid)
  let st2 := p2.1
  let rcopy := p2.2
  let p3 := flatten_norm_state st2 eid nid cs e0
  (p3.1, ecopy, rcopy, p3.2)

/-! ### Spec-side statements used by the claims -/

/-- The flattening invariant as the spec states it: the polynomial offset
is `poly(energy[i]) - poly(e0)` with `poly` evaluated at the resolved edge
energy `e0` itself — which coincides with the code's anchor
`result.eval(x=energy)[ie0]` because the resolved `e0` is always a grid
sample (larch's `preedge` snaps it there before returning). -/
abbrev FlatClaimAtE0 (cs : List ℚ) (energy : List ℚ)
    (norm : List (Option ℚ)) (e0 : ℚ) (flat : List (Option ℚ)) : Prop :=
  ∀ i, i < energy.length →
    flat.getD i none =
      if i < index_nearest energy e0 then norm.getD i none
      else (norm.getD i none).map
        (fun q => q - (evalPoly cs (energy.getD i 0) - evalPoly cs e0))

/-- Snapping policy of the three `_flatten_norm` index searches: edge index
and upper boundary land on the sample nearest their target energy; the
lower boundary lands on the last sample at or below its target energy
(floor), or 0 when every sample is above it. -/
abbrev WindowSnapSpec (energy : List ℚ) (e0 norm1 norm2 : ℚ) : Prop :=
  (flatten_indices energy e0 norm1 norm2).1 < energy.length ∧
  (∀ k, k < energy.length →
    |energy.getD (flatten_indices energy e0 norm1 norm2).1 0 - e0| ≤
      |energy.getD k 0 - e0|) ∧
  (flatten_indices energy e0 norm1 norm2).2.2 < energy.length ∧
  (∀ k, k < energy.length →
    |energy.getD (flatten_indices energy e0 norm1 norm2).2.2 0 -
        (norm2 + e0)| ≤ |energy.getD k 0 - (norm2 + e0)|) ∧
  ((∃ k, k < energy.length ∧ energy.getD k 0 ≤ norm1 + e0) →
    (flatten_indices energy e0 norm1 norm2).2.1 < energy.length ∧
    energy.getD (flatten_indices energy e0 norm1 norm2).2.1 0 ≤
      norm1 + e0 ∧
    (∀ k, (flatten_indices energy e0 norm1 norm2).2.1 < k →
      k < energy.length → ¬ energy.getD k 0 ≤ norm1 + e0)) ∧
  ((∀ k, k < energy.length → ¬ energy.getD k 0 ≤ norm1 + e0) →
    (flatten_indices energy e0 norm1 norm2).2.1 = 0)

/-- Frame property of `normalize_absorption`: after the result is built,
every pre-existing buffer (in particular the input energy and xanes
buffers) is unchanged; the `energy` and `raw` results are fresh buffers
holding copies of the inputs; and the in-place slice assignment of the
flattening landed only on the freshly allocated flat buffer, whose final
value is the flattened curve. -/
abbrev NormalizeFrameSpec (st : Store) (eid xid nid : Nat) (cs : List ℚ)
    (e0 : ℚ) : Prop :=
  (∀ j, j < st.arrays.length →
    (normalize_absorption_state st eid xid nid cs e0).1.read j =
      st.read j) ∧
  (normalize_absorption_state st eid xid nid cs e0).1.read
    (normalize_absorption_state st eid xid nid cs e0).2.1 = st.read eid ∧
  (normalize_absorption_state st eid xid nid cs e0).1.read
    (normalize_absorption_state st eid xid nid cs e0).2.2.1 =
      st.read xid ∧
  (normalize_absorption_state st eid xid nid cs e0).2.1 ≠ eid ∧
  (normalize_absorption_state st eid xid nid cs e0).2.1 ≠ xid ∧
  (normalize_absorption_state st eid xid nid cs e0).2.2.1 ≠ eid ∧
  (normalize_absorption_state st eid xid nid cs e0).2.2.1 ≠ xid ∧
  (normalize_absorption_state st eid xid nid cs e0).2.2.2 ≠ eid ∧
  (normalize_absorption_state st eid xid nid cs e0).2.2.2 ≠ xid ∧
  (normalize_absorption_state st eid xid nid cs e0).1.read
      (normalize_absorption_state st eid xid nid cs e0).2.2.2 =
    setSlicePre
      (flattenValsQ cs (st.read eid) (st.read nid)
        (index_nearest (st.read eid) e0))
      (st.read nid) 0 (index_nearest (st.read eid) e0)

/-- Resampling behavior claimed for the later scans of `load_multi_xas`:
the stacked row for scan `s` (position `k` in `rest`) holds, at grid
position `i` of the first scan, the linear interpolation of `s` at
`t = energy0[i]`; outside `s`'s own energy range that value is NaN
(`none`), and inside it is the linear formula on a bracketing segment. -/
abbrev ResampleSpec (s0 : Scan) (rest : List Scan) (k i : Nat) (s : Scan)
    (t : ℚ) : Prop :=
  ((load_multi_xas_rows (s0 :: rest)).getD (k + 1) []).getD i none =
    interp1d s.energy s.xanes t ∧
  ((t < s.energy.getD 0 0 ∨ s.energy.getD (s.energy.length - 1) 0 < t) →
    interp1d s.energy s.xanes t = none) ∧
  (s.energy.getD 0 0 ≤ t → t ≤ s.energy.getD (s.energy.length - 1) 0 →
    ∃ j, j + 1 < s.energy.length ∧ s.energy.getD j 0 ≤ t ∧
      t ≤ s.energy.getD (j + 1) 0 ∧
      interp1d s.energy s.xanes t =
        some (s.xanes.getD j 0 +
          (s.xanes.getD (j + 1) 0 - s.xanes.getD j 0) *
            (t - s.energy.getD j 0) /
            (s.energy.getD (j + 1) 0 - s.energy.getD j 0)))

/-- Aggregating a scan with itself (`return_mean=True`): the mean column
reproduces the scan and the standard error is zero everywhere. -/
abbrev TwinMeanSpec (s : Scan) : Prop :=
  (load_multi_xas_mean [s, s]).1 = s.energy ∧
  ∀ i, i < s.energy.length →
    (load_multi_xas_mean [s, s]).2.1.getD i none =
      some (s.xanes.getD i 0) ∧
    (load_multi_xas_mean [s, s]).2.2.getD i none = some (0 : ℝ)

/-! ### Concrete example data shared by witnesses and counterexamples -/

/-- Example spectrum: the norm curve lies exactly on the line `y = x` over
the fit window (indices 0-1, from `norm1 = -2`, `norm2 = 1`, `e0 = 1`), so
the degree-1 least-squares fit there is exactly the identity polynomial
`[0, 1]`.  The resolved edge energy `e0 = 1` is the grid sample at index
1, as larch's `preedge` guarantees. -/
def egEnergy : List ℚ := [0, 1, 2]

/-- Normalized curve for `egEnergy` (finite everywhere). -/
def egNorm : List (Option ℚ) := [some 0, some 1, some 5]

/-- The flat curve `_flatten_norm` produces from `egEnergy`/`egNorm` with
resolved edge energy `e0 = 1`, window `[-2, 1]`, degree 1: the offset is
anchored at `energy[1] = 1 = e0`, so `flat = [0, 1, 5 - (2 - 1)] =
[0, 1, 4]`. -/
def egFlat : List (Option ℚ) := [some 0, some 1, some 4]

/-- The identity polynomial as an lmfit result: on the example window the
degree-1 least-squares fit passes exactly through the data, with
coefficients `c0 = 0`, `c1 = 1`. -/
def linFit : List ℚ → List ℚ → Nat → List ℚ := fun _ _ _ => [0, 1]

/-- Degree-0 lmfit result through a single point: the least-squares
constant is the point itself. -/
def constFit : List ℚ → List ℚ → Nat → List ℚ := fun _ mux _ =>
  [mux.getD 0 0]

/-! ## Theorems -/

/-! ### Generic list-index helpers -/

theorem getD_cons_zero' {α : Type} (a : α) (l : List α) (d : α) :
    (a :: l).getD 0 d = a := rfl

theorem getD_cons_succ' {α : Type} (a : α) (l : List α) (n : Nat) (d : α) :
    (a :: l).getD (n + 1) d = l.getD n d := rfl

theorem getD_map_of_lt {α β : Type} (f : α → β) (l : List α) (i : Nat)
    (h : i < l.length) (d : β) (d' : α) :
    (l.map f).getD i d = f (l.getD i d') := by
  induction l generalizing i with
  | nil => simp at h
  | cons a t ih =>
    cases i with
    | zero => rfl
    | succ n =>
      simp only [List.map_cons, getD_cons_succ']
      exact ih n (by simpa using h)

theorem getD_zipWith_of_lt {α β γ : Type} (f : α → β → γ) (as : List α)
    (bs : List β) (i : Nat) (h1 : i < as.length) (h2 : i < bs.length)
    (d1 : α) (d2 : β) (d3 : γ) :
    (List.zipWith f as bs).getD i d3 = f (as.getD i d1) (bs.getD i d2) := by
  induction as generalizing bs i with
  | nil => simp at h1
  | cons a t ih =>
    cases bs with
    | nil => simp at h2
    | cons b u =>
      cases i with
      | zero => rfl
      | succ n =>
        simp only [List.zipWith_cons_cons, getD_cons_succ']
        exact ih u n (by simpa using h1) (by simpa using h2)

theorem getD_zip_of_lt {α β : Type} (as : List α) (bs : List β) (i : Nat)
    (h1 : i < as.length) (h2 : i < bs.length) (d1 : α) (d2 : β) :
    (as.zip bs).getD i (d1, d2) = (as.getD i d1, bs.getD i d2) := by
  induction as generalizing bs i with
  | nil => simp at h1
  | cons a t ih =>
    cases bs with
    | nil => simp at h2
    | cons b u =>
      cases i with
      | zero => rfl
      | succ n =>
        simp only [List.zip_cons_cons, getD_cons_succ']
        exact ih u n (by simpa using h1) (by simpa using h2)

theorem getD_of_length_le {α : Type} (l : List α) (i : Nat)
    (h : l.length ≤ i) (d : α) : l.getD i d = d := by
  induction l generalizing i with
  | nil => cases i <;> rfl
  | cons a t ih =>
    cases i with
    | zero => simp at h
    | succ n => exact ih n (by simpa using h)

theorem getD_range_map {α : Type} (g : Nat → α) (n i : Nat) (d : α) :
    ((List.range n).map g).getD i d = if i < n then g i else d := by
  by_cases h : i < n
  · rw [if_pos h]
    rw [getD_map_of_lt g (List.range n) i (by simpa using h) d 0]
    congr 1
    rw [List.getD_eq_getElem?_getD, List.getElem?_range h]
    rfl
  · rw [if_neg h]
    exact getD_of_length_le _ i (by simp; omega) d

theorem getD_append_of_lt {α : Type} (l1 l2 : List α) (i : Nat)
    (h : i < l1.length) (d : α) : (l1 ++ l2).getD i d = l1.getD i d := by
  induction l1 generalizing i with
  | nil => simp at h
  | cons a t ih =>
    cases i with
    | zero => rfl
    | succ n =>
      simp only [List.cons_append, getD_cons_succ']
      exact ih n (by simpa using h)

theorem getD_append_length {α : Type} (l1 l2 : List α) (a : α) (d : α) :
    (l1 ++ a :: l2).getD l1.length d = a := by
  induction l1 with
  | nil => rfl
  | cons b t ih => simpa using ih

theorem getD_set_ne {α : Type} (l : List α) (i j : Nat) (hij : i ≠ j)
    (v d : α) : (l.set i v).getD j d = l.getD j d := by
  induction l generalizing i j with
  | nil => rfl
  | cons a t ih =>
    cases i with
    | zero =>
      cases j with
      | zero => exact absurd rfl hij
      | succ m => rfl
    | succ n =>
      cases j with
      | zero => rfl
      | succ m =>
        simp only [List.set_cons_succ, getD_cons_succ']
        exact ih n m (fun he => hij (by rw [he]))

theorem getD_set_self_of_lt {α : Type} (l : List α) (i : Nat)
    (h : i < l.length) (v d : α) : (l.set i v).getD i d = v := by
  induction l generalizing i with
  | nil => simp at h
  | cons a t ih =>
    cases i with
    | zero => rfl
    | succ n =>
      simp only [List.set_cons_succ, getD_cons_succ']
      exact ih n (by simpa using h)

/-! ### Characterizations of the index searches -/

theorem ratAbs_eq_abs (q : ℚ) : ratAbs q = |q| := by
  unfold ratAbs
  rcases lt_or_le q 0 with h | h
  · rw [if_pos h, abs_of_neg h]
  · rw [if_neg (not_lt.mpr h), abs_of_nonneg h]

theorem argminAbs_ne_none (value : ℚ) (a : ℚ) (rest : List ℚ) :
    argminAbs value (a :: rest) ≠ none := by
  simp only [argminAbs]
  cases argminAbs value rest with
  | none => simp
  | some p =>
    obtain ⟨j, d⟩ := p
    by_cases hle : ratAbs (a - value) ≤ d <;> simp [hle]

theorem argminAbs_spec (value : ℚ) (l : List ℚ) :
    ∀ j d, argminAbs value l = some (j, d) →
      j < l.length ∧ d = ratAbs (l.getD j 0 - value) ∧
      (∀ k, k < l.length → d ≤ ratAbs (l.getD k 0 - value)) ∧
      (∀ k, k < j → d < ratAbs (l.getD k 0 - value)) := by
  induction l with
  | nil => intro j d h; simp [argminAbs] at h
  | cons a rest ih =>
    intro j d h
    simp only [argminAbs] at h
    cases hrest : argminAbs value rest with
    | none =>
      rw [hrest] at h
      dsimp only at h
      have hnil : rest = [] := by
        cases rest with
        | nil => rfl
        | cons b u => exact absurd hrest (argminAbs_ne_none value b u)
      subst hnil
      simp only [Option.some.injEq, Prod.mk.injEq] at h
      obtain ⟨hj, hd⟩ := h
      subst hj; subst hd
      refine ⟨by simp, rfl, ?_, by omega⟩
      intro k hk
      cases k with
      | zero => exact le_refl _
      | succ m => exact absurd hk (by simp)
    | some p =>
      obtain ⟨j0, d0⟩ := p
      rw [hrest] at h
      dsimp only at h
      obtain ⟨hj0, hd0, hall, hfirst⟩ := ih j0 d0 hrest
      by_cases hle : ratAbs (a - value) ≤ d0
      · rw [if_pos hle] at h
        simp only [Option.some.injEq, Prod.mk.injEq] at h
        obtain ⟨hj, hd⟩ := h
        subst hj; subst hd
        refine ⟨by simp, rfl, ?_, by omega⟩
        intro k hk
        cases k with
        | zero => exact le_refl _
        | succ m =>
          rw [getD_cons_succ']
          exact le_trans hle (hall m (by simpa using hk))
      · rw [if_neg hle] at h
        simp only [Option.some.injEq, Prod.mk.injEq] at h
        obtain ⟨hj, hd⟩ := h
        subst hj; subst hd
        refine ⟨by simpa using hj0, by simpa using hd0, ?_, ?_⟩
        · intro k hk
          cases k with
          | zero => exact le_of_lt (lt_of_not_le hle)
          | succ m => exact hall m (by simpa using hk)
        · intro k hk
          cases k with
          | zero => exact lt_of_not_le hle
          | succ m => exact hfirst m (by omega)

/-- The `index_nearest` result is in range, its entry minimizes the distance
to `value`, and it is the first such index (`np.argmin` semantics). -/
theorem index_nearest_spec (arr : List ℚ) (value : ℚ) (h : arr ≠ []) :
    index_nearest arr value < arr.length ∧
    (∀ k, k < arr.length →
      |arr.getD (index_nearest arr value) 0 - value| ≤
        |arr.getD k 0 - value|) ∧
    (∀ k, k < index_nearest arr value →
      |arr.getD (index_nearest arr value) 0 - value| <
        |arr.getD k 0 - value|) := by
  cases arr with
  | nil => exact absurd rfl h
  | cons a rest =>
    cases hm : argminAbs value (a :: rest) with
    | none => exact absurd hm (argminAbs_ne_none value a rest)
    | some p =>
      obtain ⟨j, d⟩ := p
      obtain ⟨hj, hd, hall, hfirst⟩ := argminAbs_spec value (a :: rest) j d hm
      have hni : index_nearest (a :: rest) value = j := by
        simp [index_nearest, hm]
      rw [hni]
      subst hd
      refine ⟨hj, ?_, ?_⟩
      · intro k hk
        simpa [ratAbs_eq_abs] using hall k hk
      · intro k hk
        simpa [ratAbs_eq_abs] using hfirst k hk

theorem lastLe_none_iff (value : ℚ) (l : List ℚ) :
    lastLe value l = none ↔
      ∀ k, k < l.length → ¬ l.getD k 0 ≤ value := by
  induction l with
  | nil => simp [lastLe]
  | cons a rest ih =>
    simp only [lastLe]
    cases hrest : lastLe value rest with
    | some j =>
      simp only []
      constructor
      · intro h; cases h
      · intro h
        exfalso
        have hne : ¬ lastLe value rest = none := by simp [hrest]
        rw [ih] at hne
        push_neg at hne
        obtain ⟨k, hk, hle⟩ := hne
        exact h (k + 1) (by simpa using hk) (by simpa using hle)
    | none =>
      by_cases hle : a ≤ value
      · rw [if_pos hle]
        constructor
        · intro h; cases h
        · intro h; exact absurd hle (h 0 (by simp))
      · rw [if_neg hle]
        constructor
        · intro _ k hk
          cases k with
          | zero => simpa using hle
          | succ m =>
            rw [getD_cons_succ']
            exact (ih.mp hrest) m (by simpa using hk)
        · intro _; rfl

theorem lastLe_spec (value : ℚ) (l : List ℚ) :
    ∀ j, lastLe value l = some j →
      j < l.length ∧ l.getD j 0 ≤ value ∧
      (∀ k, j < k → k < l.length → ¬ l.getD k 0 ≤ value) := by
  induction l with
  | nil => intro j h; simp [lastLe] at h
  | cons a rest ih =>
    intro j h
    simp only [lastLe] at h
    cases hrest : lastLe value rest with
    | some j0 =>
      rw [hrest] at h
      simp only [Option.some.injEq] at h
      subst h
      obtain ⟨hj0, hle0, hmax0⟩ := ih j0 hrest
      refine ⟨by simpa using hj0, by simpa using hle0, ?_⟩
      intro k hk hklen
      cases k with
      | zero => omega
      | succ m =>
        rw [getD_cons_succ']
        exact hmax0 m (by omega) (by simpa using hklen)
    | none =>
      rw [hrest] at h
      by_cases hle : a ≤ value
      · rw [if_pos hle] at h
        simp only [Option.some.injEq] at h
        subst h
        refine ⟨by simp, by simpa using hle, ?_⟩
        intro k hk hklen
        cases k with
        | zero => omega
        | succ m =>
          rw [getD_cons_succ']
          exact ((lastLe_none_iff value rest).mp hrest) m
            (by simpa using hklen)
      · rw [if_neg hle] at h; cases h

/-- `index_of` characterization: if some entry is `≤ value` the result is
the largest index of such an entry, otherwise the result is `0`. -/
theorem index_of_spec (arr : List ℚ) (value : ℚ) :
    ((∃ k, k < arr.length ∧ arr.getD k 0 ≤ value) →
      index_of arr value < arr.length ∧
      arr.getD (index_of arr value) 0 ≤ value ∧
      (∀ k, index_of arr value < k → k < arr.length →
        ¬ arr.getD k 0 ≤ value)) ∧
    ((∀ k, k < arr.length → ¬ arr.getD k 0 ≤ value) →
      index_of arr value = 0) := by
  constructor
  · intro hex
    cases hm : lastLe value arr with
    | none =>
      obtain ⟨k, hk, hle⟩ := hex
      exact absurd hle (((lastLe_none_iff value arr).mp hm) k hk)
    | some j =>
      have hval : index_of arr value = j := by simp [index_of, hm]
      rw [hval]
      exact lastLe_spec value arr j hm
  · intro hall
    have hnone : lastLe value arr = none := (lastLe_none_iff value arr).mpr hall
    simp [index_of, hnone]

/-! ### Claim C4 -/

/-- C4: in `_flatten_norm`, the edge index and the upper post-edge window
boundary snap to the grid sample nearest their target energy, and the lower
window boundary snaps to the last sample at or below its target (floor), or
to 0 when every sample lies above it; no interpolation is involved, all
three results being indices into the energy array. -/
theorem C4_window_index_snapping (energy : List ℚ) (e0 norm1 norm2 : ℚ)
    (h : energy ≠ []) : WindowSnapSpec energy e0 norm1 norm2 := by
  obtain ⟨h1, h2, -⟩ := index_nearest_spec energy e0 h
  obtain ⟨h3, h4, -⟩ := index_nearest_spec energy (norm2 + e0) h
  obtain ⟨h5, h6⟩ := index_of_spec energy (norm1 + e0)
  exact ⟨h1, h2, h3, h4, h5, h6⟩

/-- Witness for C4 on a concrete grid with off-grid targets. -/
theorem C4_window_index_snapping_witness :
    ([0, 1, 2] : List ℚ) ≠ [] ∧ WindowSnapSpec [0, 1, 2] (8/5) (-1) 1 :=
  ⟨by decide, C4_window_index_snapping [0, 1, 2] (8/5) (-1) 1 (by decide)⟩

/-! ### Claim C3 -/

/-- C3 (amended): the flattening fit fails whenever the post-edge window
holds fewer usable samples than polynomial coefficients (`nnorm + 1`); in
particular a window with fewer than 2 usable samples always fails when
`nnorm ≥ 1`, and a window with zero usable samples always fails. -/
theorem C3_insufficient_samples_fail (fit : List ℚ → List ℚ → Nat → List ℚ)
    (energy : List ℚ) (norm : List (Option ℚ)) (e0 norm1 norm2 : ℚ)
    (nnorm : Nat)
    (h : (usableSamples energy norm e0 norm1 norm2).1.length < nnorm + 1) :
    flatten_norm fit energy norm e0 norm1 norm2 nnorm =
      .error
        "improper input: number of parameters must not exceed data points" := by
  simp only [flatten_norm]
  rw [if_pos h]

/-- Witness for C3: a window whose only sample pair is non-finite leaves
zero usable samples, and the degree-1 fit fails. -/
theorem C3_insufficient_samples_fail_witness :
    (usableSamples [0, 1, 2, 3] [some 1, some 1, none, some 1]
        2 0 1).1.length < 2 ∧
    flatten_norm constFit [0, 1, 2, 3] [some 1, some 1, none, some 1]
        2 0 1 1 =
      .error
        "improper input: number of parameters must not exceed data points" :=
  ⟨by norm_num [usableSamples, remove_nans2, pySlice, index_of, lastLe,
      index_nearest, argminAbs, ratAbs],
   C3_insufficient_samples_fail constFit [0, 1, 2, 3]
     [some 1, some 1, none, some 1] 2 0 1 1
     (by norm_num [usableSamples, remove_nans2, pySlice, index_of, lastLe,
        index_nearest, argminAbs, ratAbs])⟩

/-- C3 counterexample: a post-edge window with exactly one usable sample —
fewer than 2 — does not make the flattening fail when the polynomial degree
is 0: `np.polyfit` on one point at degree 0 succeeds, `scipy` `leastsq`
with 1 parameter and 1 residual succeeds (the least-squares constant is the
point itself, `constFit`), and `_flatten_norm` returns a flat curve. -/
theorem C3_counterexample :
    (usableSamples [0, 1, 2, 3] [some 1, some 1, some 1, some 1]
        2 0 1).1.length = 1 ∧
    flatten_norm constFit [0, 1, 2, 3] [some 1, some 1, some 1, some 1]
        2 0 1 0 = .ok [some 1, some 1, some 1, some 1] := by
  constructor
  · norm_num [usableSamples, remove_nans2, pySlice, index_of, lastLe,
      index_nearest, argminAbs, ratAbs]
  · norm_num [flatten_norm, usableSamples, remove_nans2, pySlice, index_of,
      lastLe, index_nearest, argminAbs, ratAbs, setSlicePre, flattenVals,
      evalPoly, constFit, List.range_succ]

/-! ### Claim C1 -/

/-- C1: whenever `_flatten_norm` returns, the flat curve equals the norm
curve strictly before the edge index, and from it onward equals
`norm[i] - (poly(energy[i]) - poly(e0))`, `poly` being the fitted
post-edge polynomial.  The hypothesis `he0` records what larch's `preedge`
guarantees for the resolved edge energy it hands to `_flatten_norm`: it
snaps it onto the grid (`ie0 = index_nearest(energy, e0);
e0 = energy[ie0]`, and `find_e0` likewise returns a grid sample), so the
code's anchor sample `energy[index_nearest(energy, e0)]` is `e0`
itself. -/
theorem C1_flatten_invariant (fit : List ℚ → List ℚ → Nat → List ℚ)
    (energy : List ℚ) (norm : List (Option ℚ)) (e0 norm1 norm2 : ℚ)
    (nnorm : Nat) (flat : List (Option ℚ))
    (hlen : norm.length = energy.length)
    (he0 : ∃ k, k < energy.length ∧ energy.getD k 0 = e0)
    (hok : flatten_norm fit energy norm e0 norm1 norm2 nnorm = .ok flat) :
    FlatClaimAtE0
      (fit (usableSamples energy norm e0 norm1 norm2).1
        (usableSamples energy norm e0 norm1 norm2).2 nnorm)
      energy norm e0 flat := by
  intro i hi
  have hne : energy ≠ [] := by
    intro he
    rw [he] at hi
    simp at hi
  obtain ⟨hie0, hmin, -⟩ := index_nearest_spec energy e0 hne
  have hgrid : energy.getD (index_nearest energy e0) 0 = e0 := by
    obtain ⟨k, hk, hke⟩ := he0
    have h0 := hmin k hk
    rw [hke, sub_self, abs_zero] at h0
    have h1 := abs_nonneg (energy.getD (index_nearest energy e0) 0 - e0)
    exact sub_eq_zero.mp (abs_eq_zero.mp (le_antisymm h0 h1))
  simp only [flatten_norm] at hok
  by_cases hc :
      (usableSamples energy norm e0 norm1 norm2).1.length < nnorm + 1
  · rw [if_pos hc] at hok
    cases hok
  · rw [if_neg hc] at hok
    have hflat : flat =
        setSlicePre
          (flattenVals
            (fit (usableSamples energy norm e0 norm1 norm2).1
              (usableSamples energy norm e0 norm1 norm2).2 nnorm)
            energy norm (index_nearest energy e0))
          norm none (index_nearest energy e0) := by
      injection hok with h
      exact h.symm
    subst hflat
    have hFlen :
        (flattenVals
          (fit (usableSamples energy norm e0 norm1 norm2).1
            (usableSamples energy norm e0 norm1 norm2).2 nnorm)
          energy norm (index_nearest energy e0)).length = energy.length := by
      simp [flattenVals, hlen]
    rw [setSlicePre, getD_range_map]
    rw [if_pos (show i < _ from hFlen ▸ hi)]
    by_cases hlt : i < index_nearest energy e0
    · rw [if_pos hlt, if_pos hlt]
    · rw [if_neg hlt, if_neg hlt]
      simp only [flattenVals]
      rw [getD_zipWith_of_lt _ norm _ i (hlen ▸ hi) (by simpa using hi)
        none 0 none]
      rw [getD_map_of_lt (evalPoly _) energy i hi 0 0]
      rw [getD_map_of_lt (evalPoly _) energy (index_nearest energy e0)
        hie0 0 0]
      rw [hgrid]

/-- Witness for C1 on the example spectrum (edge energy on the grid, as
`preedge` resolves it). -/
theorem C1_flatten_invariant_witness :
    egNorm.length = egEnergy.length ∧
    (∃ k, k < egEnergy.length ∧ egEnergy.getD k 0 = 1) ∧
    flatten_norm linFit egEnergy egNorm 1 (-2) 1 1 = .ok egFlat ∧
    FlatClaimAtE0
      (linFit (usableSamples egEnergy egNorm 1 (-2) 1).1
        (usableSamples egEnergy egNorm 1 (-2) 1).2 1)
      egEnergy egNorm 1 egFlat :=
  ⟨by decide, ⟨1, by decide, rfl⟩,
   by norm_num [flatten_norm, egEnergy, egNorm, egFlat, linFit,
     usableSamples, remove_nans2, pySlice, index_of, lastLe, index_nearest,
     argminAbs, ratAbs, setSlicePre, flattenVals, evalPoly,
     List.range_succ],
   C1_flatten_invariant linFit egEnergy egNorm 1 (-2) 1 1 egFlat
     (by decide) ⟨1, by decide, rfl⟩
     (by norm_num [flatten_norm, egEnergy, egNorm, egFlat, linFit,
        usableSamples, remove_nans2, pySlice, index_of, lastLe,
        index_nearest, argminAbs, ratAbs, setSlicePre, flattenVals,
        evalPoly, List.range_succ])⟩

/-! ### Claim C2 -/

/-- C2 (amended): when the sample count of the non-lock-in `load_dichro`
branch is not a multiple of 4, the `reshape(size, 4)` call fails with
numpy's size-mismatch error; no silently truncated arrays of length
`n / 4` are returned. -/
theorem C2_reshape_not_multiple_of_4_errors (x0 y0 : List ℚ)
    (h : x0.length % 4 ≠ 0) :
    load_dichro_reshape x0 y0 = .error "cannot reshape array" := by
  have hne : ¬ x0.length = (x0.length / 4) * 4 := by omega
  simp only [load_dichro_reshape, np_reshape, if_neg hne]
  rfl

/-- Witness for C2 with 10 samples (10 mod 4 = 2). -/
theorem C2_reshape_not_multiple_of_4_errors_witness :
    (List.replicate 10 (0 : ℚ)).length % 4 ≠ 0 ∧
    load_dichro_reshape (List.replicate 10 0) (List.replicate 10 0) =
      .error "cannot reshape array" :=
  ⟨by decide,
   C2_reshape_not_multiple_of_4_errors (List.replicate 10 0)
     (List.replicate 10 0) (by decide)⟩

/-- C2 counterexample: with 10 samples the claim predicts arrays of length
2 = floor(10/4); the code instead stops with the reshape error (numpy's
`reshape` refuses to change the total size and never truncates). -/
theorem C2_counterexample :
    ([0, 1, 2, 3, 4, 5, 6, 7, 8, 9] : List ℚ).length % 4 = 2 ∧
    load_dichro_reshape [0, 1, 2, 3, 4, 5, 6, 7, 8, 9]
        [0, 1, 2, 3, 4, 5, 6, 7, 8, 9] = .error "cannot reshape array" := by
  exact ⟨by decide, by rfl⟩

/-! ### Claim C8 -/

/-- C8: when the spec-file-origin probe raises `NotASpecDataFile` or
`SpecDataFileNotFound`, `_select_default_names` catches the exception and
falls back to the Bluesky column-name convention instead of propagating the
error. -/
theorem C8_caught_exceptions_fall_back (check : SpecCheckOutcome)
    (h : check = SpecCheckOutcome.raisesNotASpecDataFile ∨
         check = SpecCheckOutcome.raisesSpecDataFileNotFound) :
    select_default_names true check = .ok bluesky_default_cols := by
  rcases h with h | h <;> subst h <;> rfl

/-- Witness for C8 at the file-not-found outcome. -/
theorem C8_caught_exceptions_fall_back_witness :
    (SpecCheckOutcome.raisesSpecDataFileNotFound =
        SpecCheckOutcome.raisesNotASpecDataFile ∨
     SpecCheckOutcome.raisesSpecDataFileNotFound =
        SpecCheckOutcome.raisesSpecDataFileNotFound) ∧
    select_default_names true SpecCheckOutcome.raisesSpecDataFileNotFound =
      .ok bluesky_default_cols :=
  ⟨Or.inr rfl,
   C8_caught_exceptions_fall_back SpecCheckOutcome.raisesSpecDataFileNotFound
     (Or.inr rfl)⟩

/-! ### Claim C5 -/

/-- C5: alongside the positioner column, `load_absorption` returns the
elementwise logarithmic ratio `ln(monitor/detector)` in transmission mode
and the straight ratio `detector/monitor` in fluorescence mode. -/
theorem C5_absorption_ratio (log : ℚ → ℚ) (table : Table)
    (positioner detector monitor : String) (i : Nat)
    (hm : i < (table.col monitor).length)
    (hd : i < (table.col detector).length) :
    (load_absorption log table positioner detector monitor true).1 =
      table.col positioner ∧
    (load_absorption log table positioner detector monitor true).2.getD i 0 =
      log ((table.col monitor).getD i 0 / (table.col detector).getD i 0) ∧
    (load_absorption log table positioner detector monitor false).1 =
      table.col positioner ∧
    (load_absorption log table positioner detector monitor false).2.getD i 0 =
      (table.col detector).getD i 0 / (table.col monitor).getD i 0 := by
  refine ⟨rfl, ?_, rfl, ?_⟩
  · show ((List.zipWith (fun m d => m / d) (table.col monitor)
        (table.col detector)).map log).getD i 0 = _
    rw [getD_map_of_lt log _ i (by rw [List.length_zipWith]; omega) 0 0]
    rw [getD_zipWith_of_lt (fun m d => m / d) _ _ i hm hd 0 0 0]
  · show (List.zipWith (fun d m => d / m) (table.col detector)
        (table.col monitor)).getD i 0 = _
    rw [getD_zipWith_of_lt (fun d m => d / m) _ _ i hd hm 0 0 0]

/-- Witness for C5 on a two-column table. -/
theorem C5_absorption_ratio_witness :
    (0 < ((Table.mk (fun c => if c = "mon" then [4, 8] else [2, 2])).col
        "mon").length) ∧
    (load_absorption id
        (Table.mk (fun c => if c = "mon" then [4, 8] else [2, 2]))
        "pos" "det" "mon" true).2.getD 0 0 = id ((4 : ℚ) / 2) := by
  constructor
  · decide
  · exact (C5_absorption_ratio id
      (Table.mk (fun c => if c = "mon" then [4, 8] else [2, 2]))
      "pos" "det" "mon" 0 (by decide) (by decide)).2.1

/-! ### Interpolation lemmas -/

theorem interpPts_lt_head (p : ℚ × ℚ) (rest : List (ℚ × ℚ)) (t : ℚ)
    (ht : t < p.1) : interpPts (p :: rest) t = none := by
  obtain ⟨x, y⟩ := p
  cases rest with
  | nil =>
    simp only [interpPts]
    rw [if_neg (by intro he; subst he; exact absurd ht (lt_irrefl t))]
  | cons q u =>
    obtain ⟨x2, y2⟩ := q
    simp only [interpPts]
    rw [if_pos (by simpa using ht)]

theorem interpPts_gt_all (pts : List (ℚ × ℚ)) (t : ℚ)
    (ht : ∀ p, p ∈ pts → p.1 < t) : interpPts pts t = none := by
  induction pts with
  | nil => rfl
  | cons p rest ih =>
    obtain ⟨x, y⟩ := p
    cases rest with
    | nil =>
      simp only [interpPts]
      have hx : x < t := by simpa using ht (x, y) (by simp)
      rw [if_neg (by intro he; subst he; exact absurd hx (lt_irrefl t))]
    | cons q u =>
      obtain ⟨x2, y2⟩ := q
      have hx1 : x < t := by simpa using ht (x, y) (by simp)
      have hx2 : x2 < t := by simpa using ht (x2, y2) (by simp)
      simp only [interpPts]
      rw [if_neg (not_lt.mpr (le_of_lt hx1)),
        if_neg (not_le.mpr hx2)]
      exact ih (fun p hp => ht p (List.mem_cons_of_mem _ hp))

theorem interpPts_grid (pts : List (ℚ × ℚ))
    (hp : List.Pairwise (fun p q : ℚ × ℚ => p.1 < q.1) pts) :
    ∀ j, j < pts.length →
      interpPts pts ((pts.getD j ((0 : ℚ), (0 : ℚ))).1) =
        some ((pts.getD j ((0 : ℚ), (0 : ℚ))).2) := by
  induction pts with
  | nil => intro j hj; simp at hj
  | cons p rest ih =>
    intro j hj
    obtain ⟨x, y⟩ := p
    rw [List.pairwise_cons] at hp
    obtain ⟨hhead, htail⟩ := hp
    cases rest with
    | nil =>
      cases j with
      | zero => simp [interpPts]
      | succ m => simp at hj
    | cons q u =>
      obtain ⟨x2, y2⟩ := q
      have hx12 : x < x2 := by simpa using hhead (x2, y2) (by simp)
      cases j with
      | zero =>
        simp only [getD_cons_zero', interpPts]
        rw [if_neg (lt_irrefl x), if_pos (le_of_lt hx12)]
        congr 1
        rw [sub_self, mul_zero, zero_div, add_zero]
      | succ m =>
        rw [getD_cons_succ']
        have hm : m < ((x2, y2) :: u).length := by simpa using hj
        have hx2le : x2 ≤ (((x2, y2) :: u).getD m ((0 : ℚ), (0 : ℚ))).1 := by
          cases m with
          | zero => simp
          | succ n =>
            rw [getD_cons_succ']
            have hn : n < u.length := by simpa using hm
            have hmem : u.getD n ((0 : ℚ), (0 : ℚ)) ∈ u := by
              rw [List.getD_eq_getElem?_getD, List.getElem?_eq_getElem hn]
              exact List.getElem_mem _
            rw [List.pairwise_cons] at htail
            exact le_of_lt (htail.1 _ hmem)
        simp only [interpPts]
        rw [if_neg (not_lt.mpr (le_trans (le_of_lt hx12) hx2le))]
        by_cases hcase : m = 0
        · subst hcase
          simp only [getD_cons_zero'] at hx2le ⊢
          rw [if_pos (le_refl x2)]
          congr 1
          have hne : x2 - x ≠ 0 := by
            intro hz
            exact absurd (by linarith) (lt_irrefl x)
          field_simp
        · have hm0 : 0 < m := Nat.pos_of_ne_zero hcase
          have hstrict : x2 < (((x2, y2) :: u).getD m ((0 : ℚ), (0 : ℚ))).1 := by
            cases m with
            | zero => omega
            | succ n =>
              rw [getD_cons_succ']
              have hn : n < u.length := by simpa using hm
              have hmem : u.getD n ((0 : ℚ), (0 : ℚ)) ∈ u := by
                rw [List.getD_eq_getElem?_getD, List.getElem?_eq_getElem hn]
                exact List.getElem_mem _
              rw [List.pairwise_cons] at htail
              exact htail.1 _ hmem
          rw [if_neg (not_le.mpr hstrict)]
          exact ih htail m hm

theorem interpPts_bracket (pts : List (ℚ × ℚ))
    (hp : List.Pairwise (fun p q : ℚ × ℚ => p.1 < q.1) pts)
    (h2 : 2 ≤ pts.length) (t : ℚ)
    (hlo : (pts.getD 0 ((0 : ℚ), (0 : ℚ))).1 ≤ t)
    (hhi : t ≤ (pts.getD (pts.length - 1) ((0 : ℚ), (0 : ℚ))).1) :
    ∃ j, j + 1 < pts.length ∧
      (pts.getD j ((0 : ℚ), (0 : ℚ))).1 ≤ t ∧
      t ≤ (pts.getD (j + 1) ((0 : ℚ), (0 : ℚ))).1 ∧
      interpPts pts t =
        some ((pts.getD j ((0 : ℚ), (0 : ℚ))).2 +
          ((pts.getD (j + 1) ((0 : ℚ), (0 : ℚ))).2 -
              (pts.getD j ((0 : ℚ), (0 : ℚ))).2) *
            (t - (pts.getD j ((0 : ℚ), (0 : ℚ))).1) /
            ((pts.getD (j + 1) ((0 : ℚ), (0 : ℚ))).1 -
              (pts.getD j ((0 : ℚ), (0 : ℚ))).1)) := by
  induction pts with
  | nil => simp at h2
  | cons p rest ih =>
    obtain ⟨x, y⟩ := p
    cases rest with
    | nil => simp at h2
    | cons q u =>
      obtain ⟨x2, y2⟩ := q
      rw [List.pairwise_cons] at hp
      obtain ⟨hhead, htail⟩ := hp
      by_cases hle2 : t ≤ x2
      · refine ⟨0, by simp, by simpa using hlo, by simpa using hle2, ?_⟩
        simp only [interpPts]
        rw [if_neg (not_lt.mpr (by simpa using hlo)), if_pos hle2]
        simp
      · have hx2t : x2 < t := lt_of_not_le hle2
        have hu : u ≠ [] := by
          intro he
          subst he
          have hhi2 : t ≤ x2 := by simpa using hhi
          exact absurd hhi2 (not_le.mpr hx2t)
        obtain ⟨j, hj1, hj2, hj3, hj4⟩ := ih htail
          (by
            cases u with
            | nil => exact absurd rfl hu
            | cons r v => simp)
          (le_of_lt hx2t)
          (by
            have : ((x, y) :: (x2, y2) :: u).length - 1 =
                (((x2, y2) :: u).length - 1) + 1 := by
              simp
            rw [this, getD_cons_succ'] at hhi
            exact hhi)
        refine ⟨j + 1, by simpa using hj1, by simpa using hj2,
          by simpa using hj3, ?_⟩
        simp only [interpPts]
        rw [if_neg (not_lt.mpr (by simpa using hlo)), if_neg hle2]
        simpa using hj4

/-- `interp1d` linear-interpolation characterization at the list level:
below the first sample or above the last, the result is NaN (`none`);
inside the range, the result is the linear formula on a bracketing
segment.  On the grid itself it reproduces the data. -/
theorem interp1d_grid_self (xs ys : List ℚ)
    (hsort : List.Pairwise (· < ·) xs) (hlen : ys.length = xs.length) :
    ∀ i, i < xs.length →
      interp1d xs ys (xs.getD i 0) = some (ys.getD i 0) := by
  intro i hi
  have hplen : (xs.zip ys).length = xs.length := by
    rw [List.length_zip, hlen, min_self]
  have hpair : List.Pairwise (fun p q : ℚ × ℚ => p.1 < q.1) (xs.zip ys) := by
    have hmap : (xs.zip ys).map Prod.fst = xs :=
      List.map_fst_zip xs ys (le_of_eq hlen.symm)
    rw [← hmap] at hsort
    exact (List.pairwise_map).mp hsort
  have hzip := getD_zip_of_lt xs ys i hi (hlen ▸ hi) 0 0
  have := interpPts_grid (xs.zip ys) hpair i (hplen ▸ hi)
  rw [hzip] at this
  exact this

theorem getD_eq_get {α : Type} (l : List α) (i : Nat) (h : i < l.length)
    (d : α) : l.getD i d = l.get ⟨i, h⟩ := by
  rw [List.getD_eq_getElem?_getD, List.getElem?_eq_getElem h]
  rfl

theorem sorted_getD_le_last (xs : List ℚ)
    (hsort : List.Pairwise (· < ·) xs) (n : Nat) (hn : n < xs.length) :
    xs.getD n 0 ≤ xs.getD (xs.length - 1) 0 := by
  have hlast : xs.length - 1 < xs.length := by omega
  rcases Nat.lt_or_ge n (xs.length - 1) with h | h
  · rw [getD_eq_get xs n hn 0, getD_eq_get xs (xs.length - 1) hlast 0]
    exact le_of_lt ((List.pairwise_iff_get.mp hsort) ⟨n, hn⟩
      ⟨xs.length - 1, hlast⟩ h)
  · have : n = xs.length - 1 := by omega
    rw [this]

theorem interp1d_out_of_range (xs ys : List ℚ) (t : ℚ)
    (hsort : List.Pairwise (· < ·) xs) (hlen : ys.length = xs.length)
    (hne : xs ≠ [])
    (ht : t < xs.getD 0 0 ∨ xs.getD (xs.length - 1) 0 < t) :
    interp1d xs ys t = none := by
  rcases ht with ht | ht
  · cases xs with
    | nil => exact absurd rfl hne
    | cons x xs' =>
      cases ys with
      | nil => simp at hlen
      | cons y ys' =>
        show interpPts ((x, y) :: xs'.zip ys') t = none
        exact interpPts_lt_head (x, y) _ t (by simpa using ht)
  · apply interpPts_gt_all
    intro p hp
    have hfst : p.1 ∈ xs := (List.of_mem_zip hp).1
    obtain ⟨n, hn⟩ := List.mem_iff_get.mp hfst
    calc p.1 = xs.getD n.1 0 := by
          rw [getD_eq_get xs n.1 n.2 0, ← hn]
      _ ≤ xs.getD (xs.length - 1) 0 := sorted_getD_le_last xs hsort n.1 n.2
      _ < t := ht

theorem interp1d_bracket (xs ys : List ℚ) (t : ℚ)
    (hsort : List.Pairwise (· < ·) xs) (hlen : ys.length = xs.length)
    (h2 : 2 ≤ xs.length) (hlo : xs.getD 0 0 ≤ t)
    (hhi : t ≤ xs.getD (xs.length - 1) 0) :
    ∃ j, j + 1 < xs.length ∧ xs.getD j 0 ≤ t ∧ t ≤ xs.getD (j + 1) 0 ∧
      interp1d xs ys t =
        some (ys.getD j 0 + (ys.getD (j + 1) 0 - ys.getD j 0) *
          (t - xs.getD j 0) / (xs.getD (j + 1) 0 - xs.getD j 0)) := by
  have hplen : (xs.zip ys).length = xs.length := by
    rw [List.length_zip, hlen, min_self]
  have hpair :
      List.Pairwise (fun p q : ℚ × ℚ => p.1 < q.1) (xs.zip ys) := by
    have hmap : (xs.zip ys).map Prod.fst = xs :=
      List.map_fst_zip xs ys (le_of_eq hlen.symm)
    rw [← hmap] at hsort
    exact (List.pairwise_map).mp hsort
  have hlo' : ((xs.zip ys).getD 0 ((0 : ℚ), (0 : ℚ))).1 ≤ t := by
    rw [getD_zip_of_lt xs ys 0 (by omega) (by omega) 0 0]
    exact hlo
  have hhi' : t ≤ ((xs.zip ys).getD ((xs.zip ys).length - 1)
      ((0 : ℚ), (0 : ℚ))).1 := by
    rw [hplen, getD_zip_of_lt xs ys (xs.length - 1) (by omega)
      (by omega) 0 0]
    exact hhi
  obtain ⟨j, hj1, hj2, hj3, hj4⟩ :=
    interpPts_bracket (xs.zip ys) hpair (by omega) t hlo' hhi'
  rw [hplen] at hj1
  rw [getD_zip_of_lt xs ys j (by omega) (by omega) 0 0] at hj2 hj4
  rw [getD_zip_of_lt xs ys (j + 1) (by omega) (by omega) 0 0] at hj3 hj4
  exact ⟨j, hj1, hj2, hj3, hj4⟩

/-! ### Claim C6 -/

/-- C6: in `load_multi_xas`, every scan after the first is resampled onto
the first scan's energy grid by linear interpolation; at grid energies
outside that scan's own range the resampled value is NaN (not an
extrapolation, not an error), and at grid energies inside the range it is
the linear interpolation on a bracketing segment of that scan. -/
theorem C6_multi_scan_resampling (s0 : Scan) (rest : List Scan) (k i : Nat)
    (hk : k < rest.length) (hi : i < s0.energy.length) (s : Scan)
    (hs : s = rest.getD k ⟨[], []⟩) (t : ℚ)
    (ht : t = s0.energy.getD i 0)
    (hsort : List.Pairwise (· < ·) s.energy)
    (hlen : s.xanes.length = s.energy.length)
    (h2 : 2 ≤ s.energy.length) :
    ResampleSpec s0 rest k i s t := by
  refine ⟨?_, ?_, ?_⟩
  · subst hs ht
    simp only [load_multi_xas_rows, getD_cons_succ']
    rw [getD_map_of_lt _ rest k hk [] ⟨[], []⟩]
    rw [getD_map_of_lt _ s0.energy i hi none 0]
  · intro hout
    exact interp1d_out_of_range s.energy s.xanes t hsort hlen
      (List.length_pos.mp (by omega)) hout
  · intro hlo hhi
    exact interp1d_bracket s.energy s.xanes t hsort hlen h2 hlo hhi

/-- Witness for C6: second scan `([1, 3], [10, 20])` resampled at the
grid point `t = 2` of the first scan. -/
theorem C6_multi_scan_resampling_witness :
    ResampleSpec ⟨[0, 1, 2, 3], [5, 5, 5, 5]⟩ [⟨[1, 3], [10, 20]⟩] 0 2
      ⟨[1, 3], [10, 20]⟩ 2 :=
  C6_multi_scan_resampling ⟨[0, 1, 2, 3], [5, 5, 5, 5]⟩
    [⟨[1, 3], [10, 20]⟩] 0 2 (by decide) (by decide) ⟨[1, 3], [10, 20]⟩
    rfl 2 rfl (by decide) (by decide) (by decide)

/-! ### Claim C7 -/

/-- C7: aggregating two identical copies of a scan with `return_mean=True`
returns the original scan's absorption values as the mean and a zero
standard error everywhere: resampling the scan onto its own grid
reproduces it exactly, so the two stacked rows coincide and the columnwise
standard deviation vanishes. -/
theorem C7_identical_scans_mean (s : Scan)
    (hsort : List.Pairwise (· < ·) s.energy)
    (hlen : s.xanes.length = s.energy.length)
    (_h2 : 2 ≤ s.energy.length) : TwinMeanSpec s := by
  have hrows : load_multi_xas_rows [s, s] =
      [s.xanes.map some, s.energy.map (interp1d s.energy s.xanes)] := rfl
  constructor
  · rfl
  · intro i hi
    have hxi : i < s.xanes.length := by omega
    have hrow0 : (s.xanes.map some).getD i none = some (s.xanes.getD i 0) :=
      getD_map_of_lt some s.xanes i hxi none 0
    have hrow1 : (s.energy.map (interp1d s.energy s.xanes)).getD i none =
        some (s.xanes.getD i 0) := by
      rw [getD_map_of_lt _ s.energy i hi none 0]
      exact interp1d_grid_self s.energy s.xanes hsort hlen i hi
    have hcol : colAt (load_multi_xas_rows [s, s]) i =
        [some (s.xanes.getD i 0), some (s.xanes.getD i 0)] := by
      rw [hrows]
      simp only [colAt, List.map_cons, List.map_nil]
      rw [hrow0, hrow1]
    have hmean : colMean (load_multi_xas_rows [s, s]) i =
        some (s.xanes.getD i 0) := by
      rw [colMean, hcol]
      simp only [List.all_cons, List.all_nil, Option.isSome_some,
        Bool.and_self, if_true]
      simp only [List.map_cons, List.map_nil, Option.getD_some,
        List.sum_cons, List.sum_nil, List.length_cons, List.length_nil]
      congr 1
      ring
    have hvar : colVar (load_multi_xas_rows [s, s]) i = some 0 := by
      rw [colVar, hcol]
      simp only [List.all_cons, List.all_nil, Option.isSome_some,
        Bool.and_self, if_true]
      simp only [List.map_cons, List.map_nil, Option.getD_some,
        List.sum_cons, List.sum_nil, List.length_cons, List.length_nil]
      congr 1
      ring
    refine ⟨?_, ?_⟩
    · show ((List.range s.energy.length).map
          (fun j => colMean (load_multi_xas_rows [s, s]) j)).getD i none = _
      rw [getD_range_map, if_pos hi, hmean]
    · show ((List.range s.energy.length).map
          (fun j => colStdErr (load_multi_xas_rows [s, s]) j)).getD i none = _
      rw [getD_range_map, if_pos hi, colStdErr, hvar]
      simp [Real.sqrt_zero]

/-- Witness for C7 on a two-point scan. -/
theorem C7_identical_scans_mean_witness :
    TwinMeanSpec ⟨[1, 2], [7, 9]⟩ :=
  C7_identical_scans_mean ⟨[1, 2], [7, 9]⟩ (by decide) (by decide)
    (by decide)

/-! ### Claim C10 -/

/-- C10: a single-scan sequence with `return_mean=True` returns the scan's
energy and absorption unchanged — no stacking or averaging happens on the
1-D data — together with `np.zeros(xanes.size)`: an all-zero standard-error
array of the same length as the absorption array. -/
theorem C10_single_scan_mean (s : Scan) :
    load_multi_xas_mean [s] =
      (s.energy, s.xanes.map some,
       List.replicate s.xanes.length (some (0 : ℝ))) ∧
    (load_multi_xas_mean [s]).2.2.length = s.xanes.length := by
  constructor
  · show (s.energy, s.xanes.map some, s.xanes.map (fun _ => some (0 : ℝ))) = _
    rw [List.map_const']
  · show (s.xanes.map (fun _ => some (0 : ℝ))).length = _
    rw [List.length_map]

/-! ### Claim C9 -/

theorem alloc_read_lt (st : Store) (v : List ℚ) (j : Nat)
    (hj : j < st.arrays.length) : (st.alloc v).1.read j = st.read j := by
  simp only [Store.alloc, Store.read]
  exact getD_append_of_lt st.arrays [v] j hj []

theorem alloc_read_new (st : Store) (v : List ℚ) :
    (st.alloc v).1.read st.arrays.length = v := by
  simp only [Store.alloc, Store.read]
  exact getD_append_length st.arrays [] v []

/-- Frame lemma for the two `flat`-building statements: the fresh id is the
next free slot, every pre-existing buffer is untouched, and the fresh
buffer ends up holding the flattened curve (line 688's arithmetic with
line 689's prefix overwrite). -/
theorem flatten_norm_state_frame (st : Store) (eid nid : Nat)
    (cs : List ℚ) (e0 : ℚ) :
    (flatten_norm_state st eid nid cs e0).2 = st.arrays.length ∧
    (∀ j, j < st.arrays.length →
      (flatten_norm_state st eid nid cs e0).1.read j = st.read j) ∧
    (flatten_norm_state st eid nid cs e0).1.read st.arrays.length =
      setSlicePre
        (flattenValsQ cs (st.read eid) (st.read nid)
          (index_nearest (st.read eid) e0))
        (st.read nid) 0 (index_nearest (st.read eid) e0) := by
  refine ⟨rfl, ?_, ?_⟩
  · intro j hj
    simp only [flatten_norm_state, Store.alloc, Store.write, Store.read]
    rw [getD_set_ne _ _ _ (by omega) _ _]
    exact getD_append_of_lt st.arrays _ j hj []
  · simp only [flatten_norm_state, Store.alloc, Store.write, Store.read]
    rw [getD_set_self_of_lt _ _ (by simp) _ _]
    rw [getD_append_length st.arrays [] _ []]

/-- C9: `normalize_absorption` never mutates its input energy and xanes
buffers: every buffer that existed before the call reads back unchanged,
the `energy` and `raw` results are fresh copies equal to the inputs, and
the in-place slice assignment performed during flattening affects only the
newly allocated flat buffer. -/
theorem C9_normalize_no_input_mutation (st : Store) (eid xid nid : Nat)
    (cs : List ℚ) (e0 : ℚ) (heid : eid < st.arrays.length)
    (hxid : xid < st.arrays.length) (hnid : nid < st.arrays.length) :
    NormalizeFrameSpec st eid xid nid cs e0 := by
  have hdef : normalize_absorption_state st eid xid nid cs e0 =
      ((flatten_norm_state
          ((st.alloc (st.read eid)).1.alloc
            ((st.alloc (st.read eid)).1.read xid)).1 eid nid cs e0).1,
       st.arrays.length,
       (st.alloc (st.read eid)).1.arrays.length,
       (flatten_norm_state
          ((st.alloc (st.read eid)).1.alloc
            ((st.alloc (st.read eid)).1.read xid)).1 eid nid cs e0).2) :=
    rfl
  have hl1 : (st.alloc (st.read eid)).1.arrays.length =
      st.arrays.length + 1 := by
    simp [Store.alloc]
  have hl2 : ((st.alloc (st.read eid)).1.alloc
      ((st.alloc (st.read eid)).1.read xid)).1.arrays.length =
      st.arrays.length + 2 := by
    simp [Store.alloc]
  obtain ⟨hfid, hframe, hfval⟩ := flatten_norm_state_frame
    ((st.alloc (st.read eid)).1.alloc
      ((st.alloc (st.read eid)).1.read xid)).1 eid nid cs e0
  rw [hl2] at hfid hfval
  have hread2 : ∀ j, j < st.arrays.length →
      ((st.alloc (st.read eid)).1.alloc
        ((st.alloc (st.read eid)).1.read xid)).1.read j = st.read j := by
    intro j hj
    rw [alloc_read_lt _ _ j (by rw [hl1]; omega)]
    exact alloc_read_lt st _ j hj
  have hecopy : ((st.alloc (st.read eid)).1.alloc
      ((st.alloc (st.read eid)).1.read xid)).1.read st.arrays.length =
      st.read eid := by
    rw [alloc_read_lt _ _ _ (by rw [hl1]; omega)]
    exact alloc_read_new st (st.read eid)
  have hrcopy : ((st.alloc (st.read eid)).1.alloc
      ((st.alloc (st.read eid)).1.read xid)).1.read
        (st.arrays.length + 1) = st.read xid := by
    rw [← hl1, alloc_read_new]
    exact alloc_read_lt st _ xid hxid
  refine ⟨?_, ?_, ?_, ?_, ?_, ?_, ?_, ?_, ?_, ?_⟩
  · intro j hj
    rw [hdef]
    rw [hframe j (by rw [hl2]; omega)]
    exact hread2 j hj
  · rw [hdef]
    rw [hframe st.arrays.length (by rw [hl2]; omega)]
    exact hecopy
  · rw [hdef, hl1]
    rw [hframe (st.arrays.length + 1) (by rw [hl2]; omega)]
    exact hrcopy
  · rw [hdef]; dsimp only; omega
  · rw [hdef]; dsimp only; omega
  · rw [hdef, hl1]; dsimp only; omega
  · rw [hdef, hl1]; dsimp only; omega
  · rw [hdef, hfid]; omega
  · rw [hdef, hfid]; omega
  · rw [hdef]
    dsimp only
    rw [hfid, hfval]
    rw [hread2 eid heid, hread2 nid hnid]

/-- Witness for C9 on a three-buffer store (energy, xanes, norm). -/
theorem C9_normalize_no_input_mutation_witness :
    NormalizeFrameSpec ⟨[[1, 2], [3, 4], [5, 6]]⟩ 0 1 2 [1] 1 :=
  C9_normalize_no_input_mutation ⟨[[1, 2], [3, 4], [5, 6]]⟩ 0 1 2 [1] 1
    (by decide) (by decide) (by decide)

end Polartools
